import Mathlib

/-!
Verification development for the shanbor image-transformation proxy.

The visible source is `src/main.rs` (HTTP handler `generate`, fetch/cache layer
`retrieve_image`, LRU cache of capacity 1024) together with `build.rs`.  The
`pb` (spec codec) and `engine` (Photon pipeline) modules are declared in
`main.rs` but their sources are not part of the visible tree; where a claim
depends on them, the corresponding definition is modelled from the spec and
says so in its doc comment.

Strings and byte buffers are modelled as `List Nat` of byte values; decoded
text is a `List Nat` of Unicode scalar values.  External capabilities
(the `DefaultHasher` URL hash, the `reqwest` network fetch, and the image
backend's decode/step/encode primitives) enter as explicit function
parameters, mirroring their role as library dependencies.
-/

namespace Shanbor

/-- Raw byte buffers (`Bytes` in the Rust source). -/
abbrev Bytes := List Nat

/-- A decoded URL: the Unicode scalar values of the URL string. -/
abbrev Url := List Nat

/-! ## Data model of the transformation spec

Modelled from the spec: the `pb` module (prost-generated `ImageSpec`,
`Spec`, `resize::SampleFilter`, `filter::Filter`) is declared in `main.rs`
but its source is not under `src/`; the shapes below follow spec section 3.
-/

/-- Modelled from the spec: resize sampling kernels (spec lists Nearest,
Triangle, CatmullRom, Gaussian, Lanczos3; `main.rs` uses `CatmullRom`). -/
inductive SampleFilter where
  | nearest
  | triangle
  | catmullRom
  | gaussian
  | lanczos3
deriving DecidableEq

/-- Modelled from the spec: stylistic filter presets (`main.rs` uses
`filter::Filter::Marine`). -/
inductive Filter where
  | oceanic
  | islands
  | marine
deriving DecidableEq

/-- Modelled from the spec: one transformation step, a tagged variant
carrying only its parameters (spec section 3, `Step`). -/
inductive Spec where
  | resize (width height : Nat) (filter : SampleFilter)
  | crop (x y w h : Nat)
  | watermark (x y : Nat)
  | filter (f : Filter)
deriving DecidableEq

/-- Modelled from the spec: an ordered sequence of steps (`ImageSpec` in the
`pb` module, `TransformSpec` in the spec). -/
structure ImageSpec where
  specs : List Spec
deriving DecidableEq

/-- Spec-decoding failures (spec section 7). -/
inductive SpecError where
  | malformed
  | unknownVariant
deriving DecidableEq

/-! ## Spec codec

Modelled from the spec: `encode(TransformSpec) -> String` and
`decode(String) -> Result<TransformSpec, SpecError>` (spec section 4.1).  The
byte-level schema is an implementation choice per the spec; here each step is
a variant tag byte followed by field-tagged numeric parameters written as
little-endian decimal digit bytes. -/

/-- Index of a sampling kernel, used as its wire value. -/
def sfIdx : SampleFilter → Nat
  | .nearest => 0
  | .triangle => 1
  | .catmullRom => 2
  | .gaussian => 3
  | .lanczos3 => 4

/-- Sampling kernel from its wire value. -/
def sfOfIdx : Nat → Option SampleFilter
  | 0 => some .nearest
  | 1 => some .triangle
  | 2 => some .catmullRom
  | 3 => some .gaussian
  | 4 => some .lanczos3
  | _ => none

/-- Index of a filter preset, used as its wire value. -/
def fIdx : Filter → Nat
  | .oceanic => 0
  | .islands => 1
  | .marine => 2

/-- Filter preset from its wire value. -/
def fOfIdx : Nat → Option Filter
  | 0 => some .oceanic
  | 1 => some .islands
  | 2 => some .marine
  | _ => none

/-- Is this byte an ASCII decimal digit? -/
def isDig (b : Nat) : Bool := decide (48 ≤ b ∧ b ≤ 57)

/-- Encode a number as its little-endian decimal digit bytes. -/
def encNat (n : Nat) : List Nat := (Nat.digits 10 n).map (fun d => d + 48)

/-- Read a leading run of digit bytes as a number; returns the value and the
unconsumed remainder. -/
def parseNum (l : List Nat) : Nat × List Nat :=
  (Nat.ofDigits 10 ((l.takeWhile isDig).map (fun b => b - 48)), l.dropWhile isDig)

/-- Consume one expected byte, failing with `Malformed` otherwise. -/
def pByte (b : Nat) : List Nat → Except SpecError (List Nat)
  | c :: rest => if c = b then .ok rest else .error .malformed
  | [] => .error .malformed

/-- Encode one step: variant tag byte, then field-tagged parameters. -/
def encSpec : Spec → List Nat
  | .resize w h f => 82 :: 119 :: (encNat w ++ 104 :: (encNat h ++ 102 :: encNat (sfIdx f)))
  | .crop x y w h => 67 :: 120 :: (encNat x ++ 121 :: (encNat y ++ 119 :: (encNat w ++ 104 :: encNat h)))
  | .watermark x y => 87 :: 120 :: (encNat x ++ 121 :: encNat y)
  | .filter f => 70 :: 107 :: encNat (fIdx f)

/-- Encode an ordered step list by concatenating the step encodings. -/
def encodeList : List Spec → List Nat
  | [] => []
  | s :: ss => encSpec s ++ encodeList ss

/-- Encode a whole `ImageSpec` (the `Into<String>` direction). -/
def encode (s : ImageSpec) : List Nat := encodeList s.specs

/-- Parse the body of one step given its already-consumed tag byte.  A tag
byte of an unrecognized variant (an uppercase letter other than the known
tags) yields `UnknownVariant`; any other malformation yields `Malformed`. -/
def parseStepBody (t : Nat) (l : List Nat) : Except SpecError (Spec × List Nat) :=
  if t = 82 then
    match pByte 119 l with
    | .error e => .error e
    | .ok l1 =>
      let pw := parseNum l1
      match pByte 104 pw.2 with
      | .error e => .error e
      | .ok l2 =>
        let ph := parseNum l2
        match pByte 102 ph.2 with
        | .error e => .error e
        | .ok l3 =>
          let pf := parseNum l3
          match sfOfIdx pf.1 with
          | none => .error .malformed
          | some f => .ok (.resize pw.1 ph.1 f, pf.2)
  else if t = 67 then
    match pByte 120 l with
    | .error e => .error e
    | .ok l1 =>
      let px := parseNum l1
      match pByte 121 px.2 with
      | .error e => .error e
      | .ok l2 =>
        let py := parseNum l2
        match pByte 119 py.2 with
        | .error e => .error e
        | .ok l3 =>
          let pw := parseNum l3
          match pByte 104 pw.2 with
          | .error e => .error e
          | .ok l4 =>
            let ph := parseNum l4
            .ok (.crop px.1 py.1 pw.1 ph.1, ph.2)
  else if t = 87 then
    match pByte 120 l with
    | .error e => .error e
    | .ok l1 =>
      let px := parseNum l1
      match pByte 121 px.2 with
      | .error e => .error e
      | .ok l2 =>
        let py := parseNum l2
        .ok (.watermark px.1 py.1, py.2)
  else if t = 70 then
    match pByte 107 l with
    | .error e => .error e
    | .ok l1 =>
      let pk := parseNum l1
      match fOfIdx pk.1 with
      | none => .error .malformed
      | some f => .ok (.filter f, pk.2)
  else if 65 ≤ t ∧ t ≤ 90 then .error .unknownVariant
  else .error .malformed

/-- Decode a token into a step list, with fuel bounding the step count. -/
def decodeStepsF (fuel : Nat) (l : List Nat) : Except SpecError (List Spec) :=
  match l with
  | [] => .ok []
  | t :: rest =>
    match fuel with
    | 0 => .error .malformed
    | fuel + 1 =>
      match parseStepBody t rest with
      | .error e => .error e
      | .ok (s, r) =>
        match decodeStepsF fuel r with
        | .error e => .error e
        | .ok ss => .ok (s :: ss)

/-- Decode a token into a step list; each step consumes at least one byte, so
the token length is always enough fuel. -/
def decodeSteps (l : List Nat) : Except SpecError (List Spec) :=
  decodeStepsF l.length l

/-- Decode a whole token (the `TryFrom<&str>` direction). -/
def decode (l : List Nat) : Except SpecError ImageSpec :=
  (decodeSteps l).map ImageSpec.mk

/-! ## Fetch cache

`retrieve_image` in `main.rs` keyed by a 64-bit hash of the URL over an
`lru::LruCache` of capacity 1024.  The LRU cache is embedded as a
most-recent-first association list matching the `lru` crate's behaviour:
`get` promotes a hit to the front, `put` of a fresh key at capacity drops the
least-recently-used (last) entry before inserting at the front. -/

/-- First value stored under a key, if any. -/
def getEntry (k : Nat) : List (Nat × Bytes) → Option Bytes
  | [] => none
  | (k', v) :: rest => if k' = k then some v else getEntry k rest

/-- Remove the first entry stored under a key. -/
def removeKey (k : Nat) : List (Nat × Bytes) → List (Nat × Bytes)
  | [] => []
  | (k', v) :: rest => if k' = k then rest else (k', v) :: removeKey k rest

/-- The in-memory LRU cache: capacity plus entries, most recent first. -/
structure LruCache where
  cap : Nat
  entries : List (Nat × Bytes)
deriving DecidableEq

/-- Fresh cache of the given capacity (`LruCache::new`). -/
def LruCache.new (cap : Nat) : LruCache := ⟨cap, []⟩

/-- Lookup (`LruCache::get`): on a hit the entry moves to the front. -/
def LruCache.get (c : LruCache) (k : Nat) : Option Bytes × LruCache :=
  match getEntry k c.entries with
  | none => (none, c)
  | some v => (some v, ⟨c.cap, (k, v) :: removeKey k c.entries⟩)

/-- Insert (`LruCache::put`): an existing key is updated and promoted; a
fresh key at capacity first evicts the least-recently-used (last) entry. -/
def LruCache.put (c : LruCache) (k : Nat) (v : Bytes) : LruCache :=
  match getEntry k c.entries with
  | some _ => ⟨c.cap, (k, v) :: removeKey k c.entries⟩
  | none =>
    ⟨c.cap, (k, v) :: (if c.entries.length = c.cap then c.entries.dropLast else c.entries)⟩

/-- Fetch failures (spec section 7).  `reqwest::get` surfaces transport-level
failures; `NonSuccessStatus` is the spec's name for an HTTP error status. -/
inductive FetchError where
  | networkFailure
  | nonSuccessStatus
  | timeout
deriving DecidableEq

/-- A network response as `reqwest` delivers it: a status code plus the body
bytes (`resp.bytes()` succeeds regardless of the status). -/
structure Response where
  status : Nat
  body : Bytes
deriving DecidableEq

/-- Cache plus a count of network fetches performed, so that fetch frequency
is observable. -/
structure FetchState where
  cache : LruCache
  count : Nat
deriving DecidableEq

/-- The fetch/cache layer `retrieve_image` of `main.rs`: hash the URL to a
key, serve a hit from the cache, otherwise perform the network fetch and
cache the body of any response obtained.  `hash` stands for `DefaultHasher`
and `fetch` for `reqwest::get`; a transport error propagates via `?` before
anything is stored. -/
def retrieve_image (hash : Url → Nat) (fetch : Url → Except FetchError Response)
    (url : Url) (st : FetchState) : Except FetchError Bytes × FetchState :=
  let key := hash url
  match (st.cache.get key) with
  | (some v, c') => (.ok v, ⟨c', st.count⟩)
  | (none, c') =>
    match fetch url with
    | .error e => (.error e, ⟨c', st.count + 1⟩)
    | .ok resp => (.ok resp.body, ⟨c'.put key resp.body, st.count + 1⟩)

/-! ## Percent decoding and lossy UTF-8

`main.rs` decodes the url path segment with
`percent_decode_str(&url).decode_utf8_lossy()`: percent sequences become raw
bytes (a malformed sequence passes through literally), then the byte string
is decoded as UTF-8 with every invalid sequence replaced by U+FFFD. -/

/-- Value of an ASCII hex digit byte. -/
def hexVal (b : Nat) : Option Nat :=
  if 48 ≤ b ∧ b ≤ 57 then some (b - 48)
  else if 65 ≤ b ∧ b ≤ 70 then some (b - 55)
  else if 97 ≤ b ∧ b ≤ 102 then some (b - 87)
  else none

/-- Percent-decode a byte string: `%` followed by two hex digits becomes one
byte; any other `%` passes through literally.  Never fails. -/
def percentDecodeBytes : List Nat → List Nat
  | 37 :: a :: b :: rest =>
    match hexVal a, hexVal b with
    | some x, some y => (16 * x + y) :: percentDecodeBytes rest
    | _, _ => 37 :: percentDecodeBytes (a :: b :: rest)
  | b :: rest => b :: percentDecodeBytes rest
  | [] => []

/-- Is this byte a UTF-8 continuation byte? -/
def isCont (b : Nat) : Bool := decide (128 ≤ b ∧ b ≤ 191)

/-- Valid range of the first continuation byte of a three-byte sequence. -/
def cont3ok (lead b : Nat) : Bool :=
  if lead = 224 then decide (160 ≤ b ∧ b ≤ 191)
  else if lead = 237 then decide (128 ≤ b ∧ b ≤ 159)
  else isCont b

/-- Valid range of the first continuation byte of a four-byte sequence. -/
def cont4ok (lead b : Nat) : Bool :=
  if lead = 240 then decide (144 ≤ b ∧ b ≤ 191)
  else if lead = 244 then decide (128 ≤ b ∧ b ≤ 143)
  else isCont b

/-- Lossy UTF-8 decoding to Unicode scalar values: each invalid maximal
subpart is replaced by one U+FFFD (65533), as `decode_utf8_lossy` does. -/
def utf8Lossy : List Nat → List Nat
  | [] => []
  | b :: rest =>
    if b < 128 then b :: utf8Lossy rest
    else if 194 ≤ b ∧ b ≤ 223 then
      match rest with
      | [] => [65533]
      | b1 :: rest1 =>
        if isCont b1 then ((b - 192) * 64 + (b1 - 128)) :: utf8Lossy rest1
        else 65533 :: utf8Lossy (b1 :: rest1)
    else if 224 ≤ b ∧ b ≤ 239 then
      match rest with
      | [] => [65533]
      | b1 :: rest1 =>
        if cont3ok b b1 then
          match rest1 with
          | [] => [65533]
          | b2 :: rest2 =>
            if isCont b2 then
              ((b - 224) * 4096 + (b1 - 128) * 64 + (b2 - 128)) :: utf8Lossy rest2
            else 65533 :: utf8Lossy (b2 :: rest2)
        else 65533 :: utf8Lossy (b1 :: rest1)
    else if 240 ≤ b ∧ b ≤ 244 then
      match rest with
      | [] => [65533]
      | b1 :: rest1 =>
        if cont4ok b b1 then
          match rest1 with
          | [] => [65533]
          | b2 :: rest2 =>
            if isCont b2 then
              match rest2 with
              | [] => [65533]
              | b3 :: rest3 =>
                if isCont b3 then
                  ((b - 240) * 262144 + (b1 - 128) * 4096 + (b2 - 128) * 64 + (b3 - 128))
                    :: utf8Lossy rest3
                else 65533 :: utf8Lossy (b3 :: rest3)
            else 65533 :: utf8Lossy (b2 :: rest2)
        else 65533 :: utf8Lossy (b1 :: rest1)
    else 65533 :: utf8Lossy rest

/-- The url path segment treatment of `main.rs` line 76:
`percent_decode_str(&url).decode_utf8_lossy()`.  Total by construction. -/
def percentDecodeLossy (seg : List Nat) : Url := utf8Lossy (percentDecodeBytes seg)

/-! ## The request handler `generate` -/

/-- Output container formats (`image::ImageOutputFormat`). -/
inductive ImageOutputFormat where
  | jpeg (quality : Nat)
  | png
deriving DecidableEq

/-- Pipeline-construction failures (spec section 7; the `engine` module is
not under `src/`, the error shape is modelled from the spec). -/
inductive DecodeError where
  | unsupportedFormat
  | truncated
deriving DecidableEq

/-- Modelled from the spec: `Engine::apply` of the missing `engine` module
executes the steps as a strict left-to-right fold over the pixel buffer,
delegating each step to the image backend `stepFn` (spec section 4.3). -/
def Photon.apply {P : Type} (stepFn : P → Spec → P) (ph : P) (specs : List Spec) : P :=
  specs.foldl stepFn ph

/-- A status code is a client error when it lies in the 4xx range. -/
def isClientError (s : Nat) : Prop := 400 ≤ s ∧ s < 500

/-- A status code is a server error when it lies in the 5xx range. -/
def isServerError (s : Nat) : Prop := 500 ≤ s ∧ s < 600

/-- The handler `generate` of `main.rs`: decode the spec token (failure maps
to 400), percent-decode the url segment, fetch the bytes through the cache
(failure maps to 400), construct the engine from the bytes (failure maps to
500), apply the steps, and encode the result as JPEG quality 85 with a
`content-type: image/jpeg` header.  The image backend enters as the
parameters `decodeImg` (engine construction from bytes), `stepFn` (one step
application) and `genFn` (final encoding). -/
def generate {P : Type} (hash : Url → Nat) (fetch : Url → Except FetchError Response)
    (decodeImg : Bytes → Except DecodeError P) (stepFn : P → Spec → P)
    (genFn : P → ImageOutputFormat → Bytes)
    (specTok urlTok : List Nat) (st : FetchState) :
    Except Nat (List (String × String) × Bytes) × FetchState :=
  match decode specTok with
  | .error _ => (.error 400, st)
  | .ok ispec =>
    let url := percentDecodeLossy urlTok
    match retrieve_image hash fetch url st with
    | (.error _, st') => (.error 400, st')
    | (.ok data, st') =>
      match decodeImg data with
      | .error _ => (.error 500, st')
      | .ok engine =>
        let image := genFn (Photon.apply stepFn engine ispec.specs) (.jpeg 85)
        (.ok ([("content-type", "image/jpeg")], image), st')

/-! ## Codec round-trip lemmas -/

lemma span_append (p : Nat → Bool) :
    ∀ (l1 l2 : List Nat), (∀ b ∈ l1, p b = true) →
      (∀ b, l2.head? = some b → p b = false) →
      (l1 ++ l2).takeWhile p = l1 ∧ (l1 ++ l2).dropWhile p = l2 := by
  intro l1
  induction l1 with
  | nil =>
    intro l2 _ h2
    cases l2 with
    | nil => simp
    | cons b t =>
      have hb : p b = false := h2 b (by simp)
      simp [List.takeWhile, List.dropWhile, hb]
  | cons a t ih =>
    intro l2 h1 h2
    have ha : p a = true := h1 a (by simp)
    have := ih l2 (fun b hb => h1 b (by simp [hb])) h2
    simp [List.takeWhile, List.dropWhile, ha, this.1, this.2]

lemma encNat_digits (n : Nat) : ∀ b ∈ encNat n, isDig b = true := by
  intro b hb
  simp only [encNat, List.mem_map] at hb
  obtain ⟨d, hd, rfl⟩ := hb
  have : d < 10 := Nat.digits_lt_base (by norm_num) hd
  simp [isDig]
  omega

lemma parseNum_enc (n : Nat) (rest : List Nat)
    (hrest : ∀ b, rest.head? = some b → isDig b = false) :
    parseNum (encNat n ++ rest) = (n, rest) := by
  obtain ⟨ht, hd⟩ := span_append isDig (encNat n) rest (encNat_digits n) hrest
  unfold parseNum
  rw [ht, hd]
  simp only [encNat, List.map_map]
  have : ((fun b => b - 48) ∘ fun d => d + 48) = id := by
    funext d
    simp
  rw [this, List.map_id, Nat.ofDigits_digits]

lemma head_cons_nondig (c : Nat) (hc : isDig c = false) (t : List Nat) :
    ∀ b, (c :: t).head? = some b → isDig b = false := by
  intro b hb
  simp only [List.head?_cons, Option.some.injEq] at hb
  exact hb ▸ hc

lemma sf_round (f : SampleFilter) : sfOfIdx (sfIdx f) = some f := by
  cases f <;> rfl

lemma f_round (f : Filter) : fOfIdx (fIdx f) = some f := by
  cases f <;> rfl

lemma parseStepBody_resize (w h : Nat) (f : SampleFilter) (rest : List Nat)
    (hrest : ∀ b, rest.head? = some b → isDig b = false) :
    parseStepBody 82 (119 :: (encNat w ++ 104 :: (encNat h ++ 102 :: (encNat (sfIdx f) ++ rest))))
      = .ok (.resize w h f, rest) := by
  have hw := parseNum_enc w (104 :: (encNat h ++ 102 :: (encNat (sfIdx f) ++ rest)))
    (head_cons_nondig 104 (by decide) _)
  have hh := parseNum_enc h (102 :: (encNat (sfIdx f) ++ rest))
    (head_cons_nondig 102 (by decide) _)
  have hf := parseNum_enc (sfIdx f) rest hrest
  simp [parseStepBody, pByte, hw, hh, hf, sf_round]

lemma parseStepBody_crop (x y w h : Nat) (rest : List Nat)
    (hrest : ∀ b, rest.head? = some b → isDig b = false) :
    parseStepBody 67
        (120 :: (encNat x ++ 121 :: (encNat y ++ 119 :: (encNat w ++ 104 :: (encNat h ++ rest)))))
      = .ok (.crop x y w h, rest) := by
  have hx := parseNum_enc x (121 :: (encNat y ++ 119 :: (encNat w ++ 104 :: (encNat h ++ rest))))
    (head_cons_nondig 121 (by decide) _)
  have hy := parseNum_enc y (119 :: (encNat w ++ 104 :: (encNat h ++ rest)))
    (head_cons_nondig 119 (by decide) _)
  have hw := parseNum_enc w (104 :: (encNat h ++ rest))
    (head_cons_nondig 104 (by decide) _)
  have hh := parseNum_enc h rest hrest
  simp [parseStepBody, pByte, hx, hy, hw, hh]

lemma parseStepBody_watermark (x y : Nat) (rest : List Nat)
    (hrest : ∀ b, rest.head? = some b → isDig b = false) :
    parseStepBody 87 (120 :: (encNat x ++ 121 :: (encNat y ++ rest)))
      = .ok (.watermark x y, rest) := by
  have hx := parseNum_enc x (121 :: (encNat y ++ rest)) (head_cons_nondig 121 (by decide) _)
  have hy := parseNum_enc y rest hrest
  simp [parseStepBody, pByte, hx, hy]

lemma parseStepBody_filter (f : Filter) (rest : List Nat)
    (hrest : ∀ b, rest.head? = some b → isDig b = false) :
    parseStepBody 70 (107 :: (encNat (fIdx f) ++ rest)) = .ok (.filter f, rest) := by
  have hk := parseNum_enc (fIdx f) rest hrest
  simp [parseStepBody, pByte, hk, f_round]

lemma encodeList_head (ss : List Spec) :
    ∀ b, (encodeList ss).head? = some b → isDig b = false := by
  cases ss with
  | nil => intro b hb; simp [encodeList] at hb
  | cons s t =>
    intro b hb
    cases s <;> simp [encodeList, encSpec] at hb <;> exact hb ▸ (by decide)

lemma decodeStepsF_enc (specs : List Spec) :
    ∀ fuel, specs.length ≤ fuel → decodeStepsF fuel (encodeList specs) = .ok specs := by
  induction specs with
  | nil => intro fuel _; simp [encodeList, decodeStepsF]
  | cons s ss ih =>
    intro fuel hle
    cases fuel with
    | zero => simp at hle
    | succ f =>
      have hih := ih f (by simp at hle; omega)
      cases s with
      | resize w h fl =>
        simp only [encodeList, encSpec, List.cons_append, List.append_assoc]
        simp only [decodeStepsF]
        rw [parseStepBody_resize w h fl (encodeList ss) (encodeList_head ss)]
        simp [hih]
      | crop x y w h =>
        simp only [encodeList, encSpec, List.cons_append, List.append_assoc]
        simp only [decodeStepsF]
        rw [parseStepBody_crop x y w h (encodeList ss) (encodeList_head ss)]
        simp [hih]
      | watermark x y =>
        simp only [encodeList, encSpec, List.cons_append, List.append_assoc]
        simp only [decodeStepsF]
        rw [parseStepBody_watermark x y (encodeList ss) (encodeList_head ss)]
        simp [hih]
      | filter fl =>
        simp only [encodeList, encSpec, List.cons_append, List.append_assoc]
        simp only [decodeStepsF]
        rw [parseStepBody_filter fl (encodeList ss) (encodeList_head ss)]
        simp [hih]

lemma length_le_encodeList (specs : List Spec) : specs.length ≤ (encodeList specs).length := by
  induction specs with
  | nil => simp [encodeList]
  | cons s ss ih =>
    cases s <;> simp [encodeList, encSpec, List.length_append] <;> omega

/-- C1: encoding any constructible `TransformSpec` to a spec token and
decoding that token yields the original spec: `decode (encode s) = ok s`. -/
theorem decode_encode_roundtrip (s : ImageSpec) : decode (encode s) = .ok s := by
  obtain ⟨specs⟩ := s
  unfold decode encode decodeSteps
  rw [decodeStepsF_enc specs _ (length_le_encodeList specs)]
  rfl

/-! ## LRU cache lemmas -/

lemma getEntry_eq_none (k : Nat) (es : List (Nat × Bytes)) :
    getEntry k es = none ↔ k ∉ es.map Prod.fst := by
  induction es with
  | nil => simp [getEntry]
  | cons e rest ih =>
    obtain ⟨k', v⟩ := e
    by_cases hk : k' = k
    · subst hk
      simp [getEntry]
    · simp [getEntry, hk, ih, Ne.symm hk]

lemma removeKey_sublist (k : Nat) (es : List (Nat × Bytes)) :
    List.Sublist (removeKey k es) es := by
  induction es with
  | nil => simp [removeKey]
  | cons e rest ih =>
    obtain ⟨k', v⟩ := e
    by_cases hk : k' = k
    · simp [removeKey, hk]
    · simpa [removeKey, hk] using ih.cons₂ (k', v)

lemma not_mem_removeKey (k : Nat) (es : List (Nat × Bytes))
    (h : (es.map Prod.fst).Nodup) : k ∉ (removeKey k es).map Prod.fst := by
  induction es with
  | nil => simp [removeKey]
  | cons e rest ih =>
    obtain ⟨k', v⟩ := e
    simp only [List.map_cons, List.nodup_cons] at h
    by_cases hk : k' = k
    · subst hk
      simpa [removeKey] using h.1
    · simp only [removeKey, if_neg hk, List.map_cons, List.mem_cons]
      push_neg
      exact ⟨fun he => hk he.symm, ih h.2⟩

lemma nodup_removeKey (k : Nat) (es : List (Nat × Bytes))
    (h : (es.map Prod.fst).Nodup) : ((removeKey k es).map Prod.fst).Nodup :=
  ((removeKey_sublist k es).map Prod.fst).nodup h

lemma removeKey_length (k : Nat) (es : List (Nat × Bytes)) (v : Bytes)
    (h : getEntry k es = some v) : (removeKey k es).length + 1 = es.length := by
  induction es with
  | nil => simp [getEntry] at h
  | cons e rest ih =>
    obtain ⟨k', w⟩ := e
    by_cases hk : k' = k
    · simp [removeKey, hk]
    · simp only [getEntry, if_neg hk] at h
      simp [removeKey, hk, ih h]

lemma getEntry_dropLast_none (k : Nat) (es : List (Nat × Bytes))
    (h : getEntry k es = none) : getEntry k es.dropLast = none := by
  rw [getEntry_eq_none] at h ⊢
  intro hmem
  exact h (((es.dropLast_sublist).map Prod.fst).subset hmem)

lemma put_fresh (c : LruCache) (k : Nat) (v : Bytes) (h : getEntry k c.entries = none) :
    (c.put k v).entries
      = (k, v) :: (if c.entries.length = c.cap then c.entries.dropLast else c.entries) := by
  simp [LruCache.put, h]

lemma get_miss (c : LruCache) (k : Nat) (h : getEntry k c.entries = none) :
    c.get k = (none, c) := by
  simp [LruCache.get, h]

lemma get_hit (c : LruCache) (k : Nat) (v : Bytes) (h : getEntry k c.entries = some v) :
    c.get k = (some v, ⟨c.cap, (k, v) :: removeKey k c.entries⟩) := by
  simp [LruCache.get, h]

/-- C4: the fetch cache keeps at most one entry per key, never holds more
than its capacity, evicts exactly the least-recently-accessed entry when a
fresh key is inserted at capacity, and a hit protects the accessed entry
from the next eviction. -/
theorem lru_invariants (c : LruCache) (k k' : Nat) (v w : Bytes)
    (hnd : (c.entries.map Prod.fst).Nodup)
    (hle : c.entries.length ≤ c.cap) (hcap : 0 < c.cap) :
    (((c.put k v).entries.map Prod.fst).Nodup ∧ (((c.get k').2.entries.map Prod.fst).Nodup))
    ∧ (c.put k v).entries.length ≤ c.cap
    ∧ (c.entries.length = c.cap → getEntry k c.entries = none →
        (c.put k v).entries.map Prod.fst = k :: (c.entries.map Prod.fst).dropLast)
    ∧ (getEntry k' c.entries = some w → k ≠ k' → 2 ≤ c.entries.length →
        k' ∈ (((c.get k').2.put k v).entries.map Prod.fst)) := by
  refine ⟨⟨?_, ?_⟩, ?_, ?_, ?_⟩
  · -- put preserves one-entry-per-key
    cases hg : getEntry k c.entries with
    | some u =>
      simp only [LruCache.put, hg, List.map_cons, List.nodup_cons]
      exact ⟨not_mem_removeKey k c.entries hnd, nodup_removeKey k c.entries hnd⟩
    | none =>
      rw [put_fresh c k v hg]
      have hk : k ∉ c.entries.map Prod.fst := (getEntry_eq_none k c.entries).mp hg
      by_cases hfull : c.entries.length = c.cap
      · simp only [if_pos hfull, List.map_cons, List.nodup_cons]
        refine ⟨fun hmem => hk (((c.entries.dropLast_sublist).map Prod.fst).subset hmem), ?_⟩
        exact ((c.entries.dropLast_sublist).map Prod.fst).nodup hnd
      · simp only [if_neg hfull, List.map_cons, List.nodup_cons]
        exact ⟨hk, hnd⟩
  · -- get preserves one-entry-per-key
    cases hg : getEntry k' c.entries with
    | none => rw [get_miss c k' hg]; exact hnd
    | some u =>
      rw [get_hit c k' u hg]
      simp only [List.map_cons, List.nodup_cons]
      exact ⟨not_mem_removeKey k' c.entries hnd, nodup_removeKey k' c.entries hnd⟩
  · -- boundedness
    cases hg : getEntry k c.entries with
    | some u =>
      simp only [LruCache.put, hg, List.length_cons]
      rw [removeKey_length k c.entries u hg]
      exact hle
    | none =>
      rw [put_fresh c k v hg]
      by_cases hfull : c.entries.length = c.cap
      · simp only [if_pos hfull, List.length_cons, List.length_dropLast]
        omega
      · simp only [if_neg hfull, List.length_cons]
        omega
  · -- eviction drops exactly the least-recently-used entry
    intro hfull hg
    rw [put_fresh c k v hg, if_pos hfull]
    simp [List.map_dropLast]
  · -- a hit just before an insertion protects the entry
    intro hw hkk hlen
    rw [get_hit c k' w hw]
    set R := removeKey k' c.entries with hR
    have hRlen : R.length + 1 = c.entries.length := removeKey_length k' c.entries w hw
    cases hg2 : getEntry k ((k', w) :: R) with
    | some u =>
      simp only [LruCache.put, hg2, List.map_cons]
      have hrm : removeKey k ((k', w) :: R) = (k', w) :: removeKey k R := by
        simp [removeKey, Ne.symm hkk]
      rw [hrm]
      simp
    | none =>
      have hput := put_fresh ⟨c.cap, (k', w) :: R⟩ k v hg2
      simp only at hput
      rw [hput]
      cases hRcase : R with
      | nil =>
        rw [hRcase] at hRlen
        simp at hRlen
        omega
      | cons r rs =>
        by_cases hfull : ((k', w) :: r :: rs).length = c.cap
        · rw [if_pos hfull, List.dropLast_cons₂]
          simp
        · rw [if_neg hfull]
          simp

/-- A concrete full two-entry cache used by the C4 witness. -/
def cacheC4 : LruCache := ⟨2, [(1, [10]), (2, [20])]⟩

/-- Witness for C4: the invariants theorem applied to a concrete full
two-entry cache, exercising every conjunct including both conditional
parts. -/
theorem lru_invariants_witness :
    (((cacheC4.put 3 [30]).entries.map Prod.fst).Nodup
      ∧ ((cacheC4.get 2).2.entries.map Prod.fst).Nodup)
    ∧ (cacheC4.put 3 [30]).entries.length ≤ 2
    ∧ (cacheC4.put 3 [30]).entries.map Prod.fst = 3 :: ([1, 2] : List Nat).dropLast
    ∧ 2 ∈ ((cacheC4.get 2).2.put 3 [30]).entries.map Prod.fst := by
  have h := lru_invariants cacheC4 3 2 [30] [20] (by decide) (by decide) (by decide)
  exact ⟨⟨h.1.1, h.1.2⟩, h.2.1, h.2.2.1 (by decide) (by decide),
    h.2.2.2 (by decide) (by decide) (by decide)⟩

/-! ## Concrete instances shared by witnesses -/

/-- A simple concrete stand-in for the URL hash: the first scalar value. -/
def hashHead (u : Url) : Nat := u.headD 0

/-- A concrete fetch source that answers 200 with the URL itself as body. -/
def fetchEcho : Url → Except FetchError Response := fun u => .ok ⟨200, u⟩

/-- The initial state of `main.rs`: an empty capacity-1024 cache, no fetches
performed yet. -/
def st1024 : FetchState := ⟨LruCache.new 1024, 0⟩

/-! ## Fetch/cache layer theorems -/

/-- C2 counterexample: the code treats any delivered response as success —
`reqwest::get(url).await?` only propagates transport errors and no
`error_for_status` check is made — so a non-success HTTP status (404 here)
is returned as `Ok` and its body is cached, refuting the claim that every
fetch failure (including a non-success status) yields `FetchError` with
nothing cached. -/
theorem retrieve_image_nonsuccess_cex :
    ¬ (∀ (hash : Url → Nat) (fetch : Url → Except FetchError Response) (url : Url)
        (st : FetchState),
        ((∃ e, fetch url = .error e)
          ∨ (∃ resp, fetch url = .ok resp ∧ ¬(200 ≤ resp.status ∧ resp.status < 300))) →
        (∃ e, (retrieve_image hash fetch url st).1 = .error e)
          ∧ getEntry (hash url) (retrieve_image hash fetch url st).2.cache.entries = none) := by
  intro hclaim
  have h := hclaim (fun _ => 0) (fun _ => .ok ⟨404, [7]⟩) [97] ⟨LruCache.new 2, 0⟩
    (Or.inr ⟨⟨404, [7]⟩, rfl, by decide⟩)
  obtain ⟨e, he⟩ := h.1
  rw [show (retrieve_image (fun _ => 0) (fun _ => .ok ⟨404, [7]⟩) [97]
      ⟨LruCache.new 2, 0⟩).1 = Except.ok [7] from rfl] at he
  exact Except.noConfusion he

/-- C2 (amended): when the URL is uncached and the fetch fails at the
transport level (a network error or timeout, surfaced by `reqwest` as an
error), `retrieve_image` returns that error and the cache is left entirely
unchanged — no entry appears under the URL's key.  A non-success HTTP
status is not detected as a failure; its body is cached and returned. -/
theorem retrieve_image_error_no_cache (hash : Url → Nat)
    (fetch : Url → Except FetchError Response) (url : Url) (st : FetchState) (e : FetchError)
    (hmiss : getEntry (hash url) st.cache.entries = none)
    (herr : fetch url = .error e) :
    retrieve_image hash fetch url st = (.error e, ⟨st.cache, st.count + 1⟩)
      ∧ getEntry (hash url) (retrieve_image hash fetch url st).2.cache.entries = none := by
  have hget := get_miss st.cache (hash url) hmiss
  constructor
  · simp [retrieve_image, hget, herr]
  · simp [retrieve_image, hget, herr, hmiss]

/-- Witness for the amended C2: a timeout on a fresh URL leaves the empty
cache empty and propagates the error. -/
theorem retrieve_image_error_no_cache_witness :
    retrieve_image hashHead (fun _ => .error .timeout) [97] st1024
        = (.error .timeout, ⟨st1024.cache, 1⟩)
      ∧ getEntry 97
          (retrieve_image hashHead (fun _ => .error .timeout) [97] st1024).2.cache.entries
        = none :=
  retrieve_image_error_no_cache hashHead (fun _ => .error FetchError.timeout) [97] st1024
    .timeout rfl rfl

/-- C5: starting from a state where neither URL is cached and both fetches
succeed, two sequential calls with the same URL return the fetched body
twice but perform exactly one network fetch, while a call with a second,
differently-hashed URL performs a second fetch. -/
theorem cache_hit_single_fetch (hash : Url → Nat) (fetch : Url → Except FetchError Response)
    (u1 u2 : Url) (st : FetchState) (r1 r2 : Response)
    (h1 : getEntry (hash u1) st.cache.entries = none)
    (h2 : getEntry (hash u2) st.cache.entries = none)
    (hne : hash u1 ≠ hash u2)
    (hf1 : fetch u1 = .ok r1) (hf2 : fetch u2 = .ok r2) :
    ((retrieve_image hash fetch u1 st).1 = .ok r1.body
      ∧ (retrieve_image hash fetch u1 (retrieve_image hash fetch u1 st).2).1 = .ok r1.body
      ∧ (retrieve_image hash fetch u1 (retrieve_image hash fetch u1 st).2).2.count
          = st.count + 1)
    ∧ (retrieve_image hash fetch u2 (retrieve_image hash fetch u1 st).2).2.count
        = st.count + 2 := by
  have hget1 := get_miss st.cache (hash u1) h1
  have hst1 : retrieve_image hash fetch u1 st
      = (.ok r1.body, ⟨st.cache.put (hash u1) r1.body, st.count + 1⟩) := by
    simp [retrieve_image, hget1, hf1]
  have hhit : getEntry (hash u1) (st.cache.put (hash u1) r1.body).entries = some r1.body := by
    rw [put_fresh st.cache (hash u1) r1.body h1]
    simp [getEntry]
  have hget2 := get_hit (st.cache.put (hash u1) r1.body) (hash u1) r1.body hhit
  have hmiss2 : getEntry (hash u2) (st.cache.put (hash u1) r1.body).entries = none := by
    rw [put_fresh st.cache (hash u1) r1.body h1]
    by_cases hfull : st.cache.entries.length = st.cache.cap
    · simp [getEntry, hne, hfull, getEntry_dropLast_none _ _ h2]
    · simp [getEntry, hne, hfull, h2]
  have hget3 := get_miss (st.cache.put (hash u1) r1.body) (hash u2) hmiss2
  refine ⟨⟨by rw [hst1], ?_, ?_⟩, ?_⟩
  · rw [hst1]
    simp [retrieve_image, hget2]
  · rw [hst1]
    simp [retrieve_image, hget2]
  · rw [hst1]
    simp [retrieve_image, hget3, hf2]

/-- Witness for C5: with a counting mock source, URLs `[1]` and `[2]` from
the empty cache — one fetch for the repeated URL, two for distinct ones. -/
theorem cache_hit_single_fetch_witness :
    ((retrieve_image hashHead fetchEcho [1] st1024).1 = .ok [1]
      ∧ (retrieve_image hashHead fetchEcho [1]
          (retrieve_image hashHead fetchEcho [1] st1024).2).1 = .ok [1]
      ∧ (retrieve_image hashHead fetchEcho [1]
          (retrieve_image hashHead fetchEcho [1] st1024).2).2.count = 1)
    ∧ (retrieve_image hashHead fetchEcho [2]
        (retrieve_image hashHead fetchEcho [1] st1024).2).2.count = 2 :=
  cache_hit_single_fetch hashHead fetchEcho [1] [2] st1024 ⟨200, [1]⟩ ⟨200, [2]⟩
    rfl rfl (by decide) rfl rfl

/-- C7: applying the empty step list is the identity transform of the
pipeline engine: the fold over no steps returns the buffer unchanged. -/
theorem apply_empty_identity {P : Type} (stepFn : P → Spec → P) (ph : P) :
    Photon.apply stepFn ph [] = ph := rfl

/-! ## Handler theorems -/

/-- C6: a spec token that fails to decode makes the handler return 400 — a
client error — with the state (cache and fetch count) completely untouched:
spec decoding runs before, and gates, any cache access or network fetch. -/
theorem generate_malformed_no_fetch {P : Type} (hash : Url → Nat)
    (fetch : Url → Except FetchError Response) (decodeImg : Bytes → Except DecodeError P)
    (stepFn : P → Spec → P) (genFn : P → ImageOutputFormat → Bytes)
    (specTok urlTok : List Nat) (st : FetchState) (e : SpecError)
    (hspec : decode specTok = .error e) :
    generate hash fetch decodeImg stepFn genFn specTok urlTok st = (.error 400, st)
      ∧ isClientError 400 := by
  constructor
  · simp [generate, hspec]
  · simp [isClientError]

/-- Witness for C6: the truncated token `[82]` (a resize tag with no fields)
is malformed; the handler answers 400 and the state is unchanged. -/
theorem generate_malformed_no_fetch_witness :
    generate hashHead fetchEcho (fun _ => .ok (0 : Nat)) (fun p _ => p) (fun p _ => [p])
        [82] [97] st1024 = (.error 400, st1024) ∧ isClientError 400 :=
  generate_malformed_no_fetch hashHead fetchEcho (fun _ => .ok (0 : Nat)) (fun p _ => p)
    (fun p _ => [p]) [82] [97] st1024 .malformed rfl

/-- C3 counterexample: at a concrete request whose fetched bytes fail
pipeline construction with a `DecodeError`, `main.rs` line 86 surfaces
`INTERNAL_SERVER_ERROR`: the status is 500, which is not a client-error
status, refuting the claim that a `DecodeError` is surfaced as a client
error. -/
theorem generate_decode_error_cex :
    (generate hashHead (fun _ => .ok ⟨200, [9]⟩)
        (fun _ => (.error DecodeError.unsupportedFormat : Except DecodeError Nat))
        (fun p _ => p) (fun p _ => [p]) [] [97] st1024).1 = .error 500
    ∧ ¬ isClientError 500 := by
  refine ⟨rfl, ?_⟩
  simp [isClientError]

/-- C3 (amended): when the fetched source bytes are not a decodable image,
pipeline construction fails with `DecodeError` and the handler surfaces it
as 500 Internal Server Error — a server-error status, not a client-error
one. -/
theorem generate_decode_error_server_error {P : Type} (hash : Url → Nat)
    (fetch : Url → Except FetchError Response) (decodeImg : Bytes → Except DecodeError P)
    (stepFn : P → Spec → P) (genFn : P → ImageOutputFormat → Bytes)
    (specTok urlTok : List Nat) (st st' : FetchState) (ispec : ImageSpec) (data : Bytes)
    (e : DecodeError)
    (hspec : decode specTok = .ok ispec)
    (hret : retrieve_image hash fetch (percentDecodeLossy urlTok) st = (.ok data, st'))
    (hdec : decodeImg data = .error e) :
    generate hash fetch decodeImg stepFn genFn specTok urlTok st = (.error 500, st')
      ∧ isServerError 500 := by
  constructor
  · simp [generate, hspec, hret, hdec]
  · simp [isServerError]

/-- Witness for the amended C3: undecodable source bytes on an empty spec
token produce exactly the 500 answer. -/
theorem generate_decode_error_server_error_witness :
    generate hashHead (fun _ => .ok ⟨200, [9]⟩)
        (fun _ => (.error DecodeError.unsupportedFormat : Except DecodeError Nat))
        (fun p _ => p) (fun p _ => [p]) [] [97] st1024
      = (.error 500, ⟨⟨1024, [(97, [9])]⟩, 1⟩) ∧ isServerError 500 :=
  generate_decode_error_server_error hashHead (fun _ => .ok ⟨200, [9]⟩)
    (fun _ => (.error DecodeError.unsupportedFormat : Except DecodeError Nat))
    (fun p _ => p) (fun p _ => [p]) [] [97] st1024 ⟨⟨1024, [(97, [9])]⟩, 1⟩
    ⟨[]⟩ [9] .unsupportedFormat rfl rfl rfl

/-- C9: whatever the spec token or source, a successful response always
carries exactly the `content-type: image/jpeg` header and a body produced
by the terminal encoding at JPEG quality 85 — both hard-coded in
`main.rs` lines 89-94, configurable by nothing in the request. -/
theorem generate_jpeg_fixed {P : Type} (hash : Url → Nat)
    (fetch : Url → Except FetchError Response) (decodeImg : Bytes → Except DecodeError P)
    (stepFn : P → Spec → P) (genFn : P → ImageOutputFormat → Bytes)
    (specTok urlTok : List Nat) (st st' : FetchState)
    (hdrs : List (String × String)) (body : Bytes)
    (h : generate hash fetch decodeImg stepFn genFn specTok urlTok st
        = (.ok (hdrs, body), st')) :
    hdrs = [("content-type", "image/jpeg")] ∧ ∃ ph : P, body = genFn ph (.jpeg 85) := by
  unfold generate at h
  split at h
  · simp at h
  · dsimp only at h
    split at h
    · simp at h
    · split at h
      · simp at h
      · rw [Prod.mk.injEq] at h
        obtain ⟨h1, _⟩ := h
        rw [Except.ok.injEq, Prod.mk.injEq] at h1
        exact ⟨h1.1.symm, _, h1.2.symm⟩

/-- Witness for C9: a concrete successful request; the header list and the
JPEG-85 body shape come out as stated. -/
theorem generate_jpeg_fixed_witness :
    ([("content-type", "image/jpeg")] : List (String × String))
        = [("content-type", "image/jpeg")]
    ∧ ∃ ph : Nat, ([0] : Bytes) = [ph] :=
  generate_jpeg_fixed hashHead fetchEcho (fun _ => .ok (0 : Nat)) (fun p _ => p)
    (fun p _ => [p]) [] [97] st1024 ⟨⟨1024, [(97, [97])]⟩, 1⟩
    [("content-type", "image/jpeg")] [0] rfl

/-- C10: percent-decoding of the url segment is total and lossy, never an
error: the distinct encoded segments `%61bc` and `abc` decode to the same
URL and therefore share one cache entry and one fetch, and the invalid
UTF-8 byte produced by `%FF` is replaced by U+FFFD rather than rejected. -/
theorem percent_decode_lossy_sharing :
    (percentDecodeLossy [37, 54, 49, 98, 99] = percentDecodeLossy [97, 98, 99]
      ∧ ([37, 54, 49, 98, 99] : List Nat) ≠ [97, 98, 99])
    ∧ percentDecodeLossy [37, 70, 70] = [65533]
    ∧ (retrieve_image hashHead fetchEcho (percentDecodeLossy [97, 98, 99])
        (retrieve_image hashHead fetchEcho (percentDecodeLossy [37, 54, 49, 98, 99])
          st1024).2).2.count = 1 := by
  refine ⟨⟨rfl, by decide⟩, rfl, rfl⟩

end Shanbor
